import Mathlib

set_option maxRecDepth 100000

/-!
Verification of the JSX tree-layout transformer of
`src/entities/RenderGraphSvg.tsx` (function `applyJsxTreeLayout` and its
helpers).  The TypeScript code is shallowly embedded: JS numbers are
modelled as rationals (all operations used are +, -, *, and division by 2,
which are exact), JS `Map` objects are modelled as association lists whose
`set` replaces in place or appends (insertion-order semantics), and the
unbounded JS recursion of the two depth-first passes is modelled with an
explicit fuel parameter (`fuelOf`, one more than the number of jsx nodes,
which is shown to be irrelevant exactly when the JS recursion terminates).
-/

/-- A graph node as produced by `buildGraphFromMappingResult`: identity,
kind tag, label, centre coordinates, box size, and the only `meta` field
the layout reads, `meta?.jsxParentId` (absent `meta` and absent field are
indistinguishable through optional chaining, so both are `none`). -/
structure GraphNode where
  id : String
  kind : String
  label : String
  x : Rat
  y : Rat
  width : Rat
  height : Rat
  jsxParentId : Option String
deriving DecidableEq

/-- One endpoint of an edge: an optional node reference (`string |
undefined` in the source) plus a cached coordinate snapshot. -/
structure EdgeEndpoint where
  nodeId : Option String
  x : Rat
  y : Rat
deriving DecidableEq

/-- An edge of the layout; `from`/`to` are Lean keywords, hence
`fromEp`/`toEp`. -/
structure GraphEdge where
  id : String
  kind : String
  label : Option String
  fromEp : EdgeEndpoint
  toEp : EdgeEndpoint
deriving DecidableEq

/-- The per-column anchor x coordinates; `variable` is a Lean keyword,
hence the field `varX`. -/
structure ColX where
  independent : Rat
  state : Rat
  varX : Rat
  effect : Rat
  jsx : Rat
deriving DecidableEq

/-- The aggregate layout consumed and produced by the transformer. -/
structure GraphLayout where
  nodes : List GraphNode
  edges : List GraphEdge
  width : Rat
  height : Rat
  colX : ColX
deriving DecidableEq

/-- `Map.set` on an association list: replace the binding in place if the
key is present (JS `Map.set` keeps insertion order), otherwise append. -/
def alSet {κ α : Type} [DecidableEq κ] : List (κ × α) → κ → α → List (κ × α)
  | [], k, v => [(k, v)]
  | (k', v') :: rest, k, v =>
      if k' = k then (k, v) :: rest else (k', v') :: alSet rest k v

/-- `Map.get` on an association list. -/
def alGet {κ α : Type} [DecidableEq κ] : List (κ × α) → κ → Option α
  | [], _ => none
  | (k', v') :: rest, k => if k' = k then some v' else alGet rest k

/-- A JS `Map` from node id to node built by inserting a node list in
order: the last node with a given id wins.  Used for `jsxNodeById`,
`parentIdMap` (through `getParent`) and `nodeByIdAfter`. -/
def lookupNode (nodes : List GraphNode) (nid : String) : Option GraphNode :=
  nodes.foldl (fun acc n => if n.id = nid then some n else acc) none

/-- `parentIdMap.get(id)` flattened: the stored value is itself optional
and JS cannot distinguish a missing key from a stored `undefined`. -/
def getParent (jsx : List GraphNode) (nid : String) : Option String :=
  (lookupNode jsx nid).bind (fun n => n.jsxParentId)

/-- `jsxNodeById.has p`. -/
def jsxHas (jsx : List GraphNode) (p : String) : Bool :=
  (lookupNode jsx p).isSome

/-- The jsx-kind nodes of a layout, in input order. -/
def jsxNodesOf (L : GraphLayout) : List GraphNode :=
  L.nodes.filter (fun n => decide (n.kind = "jsx"))

/-- A jsx node is a root when `!parentId || !jsxNodeById.has(parentId)`:
note that the JS falsiness test also promotes an empty-string parent id. -/
def isRootJsx (jsx : List GraphNode) (n : GraphNode) : Bool :=
  match getParent jsx n.id with
  | none => true
  | some p => decide (p = "") || !(jsxHas jsx p)

/-- `rootJsxNodes`. -/
def rootsOf (L : GraphLayout) : List GraphNode :=
  (jsxNodesOf L).filter (fun n => isRootJsx (jsxNodesOf L) n)

/-- The child jsx nodes of a node: `parentIdMap.get(child.id) === node.id`
(strict equality, so a stored `undefined` never matches). -/
def childrenOf (jsx : List GraphNode) (node : GraphNode) : List GraphNode :=
  jsx.filter (fun c => decide (getParent jsx c.id = some node.id))

/-- The generic skeleton shared by the two depth-first passes of the
source (`dfs` and `assignPosition` differ only in the statement executed
at each visited node).  The JS recursion is unbounded; `fuel` bounds the
recursion depth of the model, and `fuelOf` below is shown sufficient
whenever the JS recursion terminates. -/
def travGo {σ : Type} (jsx : List GraphNode) (visit : σ → String → Nat → σ) :
    Nat → GraphNode → Nat → σ → σ
  | 0 => fun _ _ st => st
  | fuel + 1 => fun node depth st =>
      (childrenOf jsx node).foldl
        (fun acc c => travGo jsx visit fuel c (depth + 1) acc)
        (visit st node.id depth)

/-- State of the first pass: `depthById` and `rowIndexByDepth`. -/
structure DfsState where
  depthById : List (String × Nat)
  rowIndexByDepth : List (Nat × Nat)
deriving DecidableEq

/-- Body of `dfs`: record the depth and bump this depth's row counter. -/
def visitDfs (st : DfsState) (nid : String) (depth : Nat) : DfsState :=
  { depthById := alSet st.depthById nid depth
    rowIndexByDepth :=
      alSet st.rowIndexByDepth depth
        ((alGet st.rowIndexByDepth depth).getD 0 + 1) }

/-- Recursion-depth budget used by the model for each root's traversal. -/
def fuelOf (L : GraphLayout) : Nat := (jsxNodesOf L).length + 1

/-- The state after `for (const root of rootJsxNodes) dfs(root, 0)`. -/
def dfsStateOf (L : GraphLayout) : DfsState :=
  (rootsOf L).foldl
    (fun st r => travGo (jsxNodesOf L) visitDfs (fuelOf L) r 0 st)
    ⟨[], []⟩

/-- `maxDepth`: the largest value stored in `depthById`. -/
def maxDepthOf (L : GraphLayout) : Nat :=
  (dfsStateOf L).depthById.foldl (fun m kv => if kv.2 > m then kv.2 else m) 0

/-- State of the second pass: `usedRowsPerDepth` and `newNodePositions`. -/
structure PosState where
  usedRowsPerDepth : List (Nat × Nat)
  newNodePositions : List (String × (Rat × Rat))
deriving DecidableEq

/-- Body of `assignPosition`: read and bump the per-depth row counter and
record the centred coordinates (`depthGapX = 160`, `baseY = 80`,
`rowGapY = 40`). -/
def visitPos (baseX : Rat) (maxDepth : Nat) (st : PosState) (nid : String)
    (depth : Nat) : PosState :=
  { usedRowsPerDepth :=
      alSet st.usedRowsPerDepth depth
        ((alGet st.usedRowsPerDepth depth).getD 0 + 1)
    newNodePositions :=
      alSet st.newNodePositions nid
        (baseX - ((maxDepth : Rat) * 160) / 2 + (depth : Rat) * 160,
         80 + (((alGet st.usedRowsPerDepth depth).getD 0 : Nat) : Rat) * 40) }

/-- The state after the second pass over the roots. -/
def posStateOf (L : GraphLayout) : PosState :=
  (rootsOf L).foldl
    (fun st r =>
      travGo (jsxNodesOf L) (visitPos L.colX.jsx (maxDepthOf L)) (fuelOf L)
        r 0 st)
    ⟨[], []⟩

/-- `newNodePositions.get(node.id)`. -/
def posOf (L : GraphLayout) (nid : String) : Option (Rat × Rat) :=
  alGet (posStateOf L).newNodePositions nid

/-- Node update of the `newNodes` map: overwrite `x`/`y` when a position
was computed, otherwise return the node untouched. -/
def applyPos (pm : List (String × (Rat × Rat))) (n : GraphNode) : GraphNode :=
  match alGet pm n.id with
  | some p => { n with x := p.1, y := p.2 }
  | none => n

/-- `newNodes`. -/
def updatedNodes (L : GraphLayout) : List GraphNode :=
  L.nodes.map (applyPos (posStateOf L).newNodePositions)

/-- Endpoint reconciliation: `if (nodeId && nodeByIdAfter.has(nodeId))`
overwrite the cached snapshot with the (post-transform) node's centre; the
falsiness test means an empty-string node id is never looked up. -/
def reconcileEp (nodes : List GraphNode) (ep : EdgeEndpoint) : EdgeEndpoint :=
  match ep.nodeId with
  | none => ep
  | some nid =>
      if nid = "" then ep
      else
        match lookupNode nodes nid with
        | some n => { ep with x := n.x, y := n.y }
        | none => ep

/-- One element of `newEdges`. -/
def reconcileEdge (nodes : List GraphNode) (e : GraphEdge) : GraphEdge :=
  { e with fromEp := reconcileEp nodes e.fromEp
           toEp := reconcileEp nodes e.toEp }

/-- The running-maximum loops computing `maxX` and `maxY`. -/
def foldMax {α : Type} (f : α → Rat) (init : Rat) (l : List α) : Rat :=
  l.foldl (fun m a => if f a > m then f a else m) init

/-- `maxX`: the corrected canvas width. -/
def widthOut (L : GraphLayout) : Rat :=
  foldMax (fun n => n.x + n.width / 2 + 40) L.width (updatedNodes L)

/-- `maxY`: the corrected canvas height. -/
def heightOut (L : GraphLayout) : Rat :=
  foldMax (fun n => n.y + n.height / 2 + 40) L.height (updatedNodes L)

/-- `applyJsxTreeLayout`. -/
def applyJsxTreeLayout (L : GraphLayout) : GraphLayout :=
  if (jsxNodesOf L).isEmpty then L
  else
    { nodes := updatedNodes L
      edges := L.edges.map (reconcileEdge (updatedNodes L))
      width := widthOut L
      height := heightOut L
      colX := L.colX }

/-! ## Basic facts about the association-list maps and running maxima -/

theorem alGet_alSet {κ α : Type} [DecidableEq κ] (l : List (κ × α)) (k k' : κ)
    (v : α) : alGet (alSet l k v) k' = if k' = k then some v else alGet l k' := by
  induction l with
  | nil =>
    by_cases h : k' = k
    · subst h; simp [alSet, alGet]
    · simp [alSet, alGet, h, Ne.symm h]
  | cons kv rest ih =>
    obtain ⟨k₀, v₀⟩ := kv
    by_cases h : k₀ = k
    · subst h
      by_cases h' : k' = k₀
      · subst h'; simp [alSet, alGet]
      · simp [alSet, alGet, h', Ne.symm h']
    · by_cases h' : k' = k₀
      · have hk : ¬ k' = k := fun hh => h (h'.symm.trans hh)
        simp [alSet, alGet, h, h'.symm, hk]
      · simp [alSet, alGet, h, h', Ne.symm h', ih]

theorem foldMax_le_init {α : Type} (f : α → Rat) :
    ∀ (l : List α) (init : Rat), init ≤ foldMax f init l := by
  intro l
  induction l with
  | nil => intro init; simp [foldMax]
  | cons a l ih =>
    intro init
    have h1 : init ≤ if f a > init then f a else init := by
      split
      · exact le_of_lt (by assumption)
      · exact le_refl _
    calc init ≤ if f a > init then f a else init := h1
      _ ≤ foldMax f (if f a > init then f a else init) l := ih _

theorem foldMax_ge_mem {α : Type} (f : α → Rat) :
    ∀ (l : List α) (init : Rat) (a : α), a ∈ l → f a ≤ foldMax f init l := by
  intro l
  induction l with
  | nil => intro init a ha; cases ha
  | cons b l ih =>
    intro init a ha
    rcases List.mem_cons.mp ha with h | h
    · subst h
      have h2 : f a ≤ if f a > init then f a else init := by
        split
        · exact le_refl _
        · exact le_of_not_lt (by assumption)
      calc f a ≤ if f a > init then f a else init := h2
        _ ≤ foldMax f _ l := foldMax_le_init f l _
    · exact ih _ a h

theorem foldMax_absorb {α : Type} (f : α → Rat) :
    ∀ (l : List α) (init : Rat), (∀ a ∈ l, f a ≤ init) → foldMax f init l = init := by
  intro l
  induction l with
  | nil => intro init _; simp [foldMax]
  | cons a l ih =>
    intro init h
    have ha : ¬ f a > init := not_lt.mpr (h a (List.mem_cons_self a l))
    have : foldMax f init (a :: l) = foldMax f init l := by
      simp [foldMax, ha]
    rw [this, ih init (fun b hb => h b (List.mem_cons_of_mem a hb))]

/-! ## Generic facts about the traversal skeleton -/

theorem foldl_preserve {σ α : Type} (P : σ → Prop) (step : σ → α → σ)
    (hs : ∀ s a, P s → P (step s a)) :
    ∀ (l : List α) (s : σ), P s → P (l.foldl step s) := by
  intro l
  induction l with
  | nil => intro s h; simpa using h
  | cons a l ih => intro s h; exact ih _ (hs s a h)

theorem trav_preserve {σ : Type} (jsx : List GraphNode)
    (visit : σ → String → Nat → σ) (P : σ → Prop)
    (hv : ∀ st nid d, P st → P (visit st nid d)) :
    ∀ (fuel : Nat) (n : GraphNode) (d : Nat) (st : σ),
      P st → P (travGo jsx visit fuel n d st) := by
  intro fuel
  induction fuel with
  | zero => intro n d st h; simpa [travGo] using h
  | succ fuel ih =>
    intro n d st h
    show P ((childrenOf jsx n).foldl
      (fun acc c => travGo jsx visit fuel c (d + 1) acc) (visit st n.id d))
    exact foldl_preserve P _ (fun s c hs => ih c (d + 1) s hs) _ _ (hv st n.id d h)

/-! ## The coordinate formula of the position pass (claim C1) -/

/-- Every recorded position has the documented shape: an x centred around
the jsx column anchor by depth, and a y that is `80` plus a multiple of
`40` given by the per-depth row counter. -/
def posShaped (baseX : Rat) (maxD : Nat) (pr : Rat × Rat) : Prop :=
  ∃ d r : Nat,
    pr.1 = baseX - ((maxD : Rat) * 160) / 2 + (d : Rat) * 160 ∧
    pr.2 = 80 + (r : Rat) * 40

theorem posState_shape (L : GraphLayout) :
    ∀ (nid : String) (pr : Rat × Rat),
      alGet (posStateOf L).newNodePositions nid = some pr →
      posShaped L.colX.jsx (maxDepthOf L) pr := by
  let P : PosState → Prop := fun st => ∀ nid pr,
    alGet st.newNodePositions nid = some pr →
    posShaped L.colX.jsx (maxDepthOf L) pr
  have hv : ∀ st nid d, P st → P (visitPos L.colX.jsx (maxDepthOf L) st nid d) := by
    intro st nid d hst nid' pr h'
    simp only [visitPos] at h'
    rw [alGet_alSet] at h'
    split at h'
    · cases h'
      exact ⟨d, (alGet st.usedRowsPerDepth d).getD 0, rfl, rfl⟩
    · exact hst nid' pr h'
  have hP : P (posStateOf L) := by
    unfold posStateOf
    refine foldl_preserve P _ ?_ _ _ ?_
    · exact fun s r hs =>
        trav_preserve (jsxNodesOf L) (visitPos L.colX.jsx (maxDepthOf L)) P hv
          (fuelOf L) r 0 s hs
    · intro nid pr h
      simp [alGet] at h
  exact hP

/-! ## Concrete layouts used by scenarios, witnesses and counterexamples -/

/-- Node constructor helper for the concrete layouts below. -/
def mkNode (i k : String) (px py : Rat) (p : Option String) : GraphNode :=
  { id := i, kind := k, label := i, x := px, y := py, width := 120,
    height := 28, jsxParentId := p }

/-- Column anchors with the jsx column at `400`, as in the spec scenario. -/
def colX0 : ColX := ⟨80, 160, 240, 320, 400⟩

/-- The spec's three-node scenario: one jsx root with two jsx children. -/
def exScenario : GraphLayout :=
  { nodes := [mkNode "root" "jsx" 0 0 none,
              mkNode "child1" "jsx" 0 0 (some "root"),
              mkNode "child2" "jsx" 0 0 (some "root")]
    edges := [], width := 800, height := 600, colX := colX0 }

/-- A layout without any jsx-kind node (for the passthrough claim). -/
def exNoJsx : GraphLayout :=
  { nodes := [mkNode "a" "state" 100 100 none]
    edges := [⟨"e", "flow", none, ⟨some "a", 0, 0⟩, ⟨none, 5, 5⟩⟩]
    width := 640, height := 480, colX := colX0 }

/-! ## Claim C1 -/

/-- Claim C1: each visited jsx node is placed at
`x = colX.jsx - (D * 160)/2 + d * 160` and `y = 80 + row * 40` (with `D`
the maximum recorded depth, `d` the node's depth and `row` the per-depth
counter of the position pass), and the three-node scenario with
`colX.jsx = 400` puts root at `(320, 80)`, child1 at `(480, 80)` and
child2 at `(480, 120)`. -/
theorem claim1_position_formula_and_scenario :
    (∀ (L : GraphLayout) (nid : String) (pr : Rat × Rat),
        posOf L nid = some pr →
        ∃ d r : Nat,
          pr.1 = L.colX.jsx - ((maxDepthOf L : Rat) * 160) / 2 + (d : Rat) * 160 ∧
          pr.2 = 80 + (r : Rat) * 40) ∧
    ((applyJsxTreeLayout exScenario).nodes.map fun n => (n.id, n.x, n.y)) =
      [("root", (320 : Rat), (80 : Rat)), ("child1", 480, 80),
       ("child2", 480, 120)] := by
  constructor
  · intro L nid pr h
    exact posState_shape L nid pr h
  · with_unfolding_all decide

/-- Witness for C1's hypothesis: the scenario root's recorded position. -/
theorem claim1_witness :
    posOf exScenario "root" = some (320, 80) ∧
    (∃ d r : Nat,
      ((320 : Rat), (80 : Rat)).1 =
        exScenario.colX.jsx - ((maxDepthOf exScenario : Rat) * 160) / 2 +
          (d : Rat) * 160 ∧
      ((320 : Rat), (80 : Rat)).2 = 80 + (r : Rat) * 40) :=
  ⟨by with_unfolding_all decide,
   claim1_position_formula_and_scenario.1 exScenario "root" (320, 80)
     (by with_unfolding_all decide)⟩

/-! ## Claim C2 -/

/-- Claim C2: a layout with no jsx-kind node is returned unchanged. -/
theorem claim2_passthrough_identity (L : GraphLayout)
    (h : ∀ n ∈ L.nodes, n.kind ≠ "jsx") : applyJsxTreeLayout L = L := by
  have hz : jsxNodesOf L = [] := by
    apply List.filter_eq_nil_iff.mpr
    intro a ha
    simpa using h a ha
  simp [applyJsxTreeLayout, hz]

/-- Witness for C2 on a concrete jsx-free layout. -/
theorem claim2_witness :
    (∀ n ∈ exNoJsx.nodes, n.kind ≠ "jsx") ∧
    applyJsxTreeLayout exNoJsx = exNoJsx :=
  ⟨by with_unfolding_all decide,
   claim2_passthrough_identity exNoJsx (by with_unfolding_all decide)⟩

/-! ## Claim C7 -/

/-- Claim C7: the transformer never shrinks the canvas: the output width
and height are at least the input width and height. -/
theorem claim7_canvas_monotone (L : GraphLayout) :
    L.width ≤ (applyJsxTreeLayout L).width ∧
    L.height ≤ (applyJsxTreeLayout L).height := by
  unfold applyJsxTreeLayout
  split
  · exact ⟨le_refl _, le_refl _⟩
  · exact ⟨foldMax_le_init _ _ _, foldMax_le_init _ _ _⟩

/-! ## Claim C5: the unguarded traversal diverges on a parent cycle -/

/-- Jsx node with id `"r"` whose declared parent is the empty string:
`!""` is true in JS, so the root filter treats it as a root. -/
def nodeR : GraphNode := mkNode "r" "jsx" 0 0 (some "")

/-- Jsx node with the empty string as id and parent `"r"`; together with
`nodeR` its parent links form a two-cycle `"r" → "" → "r"`. -/
def nodeE : GraphNode := mkNode "" "jsx" 0 0 (some "r")

/-- The cyclic layout on which the source's `dfs` recursion never
terminates (`dfs(r,0)` visits `r`, then `""`, then `r` again, ...). -/
def exFalsyCycle : GraphLayout :=
  { nodes := [nodeR, nodeE], edges := [], width := 800, height := 600,
    colX := colX0 }

theorem childrenR : childrenOf (jsxNodesOf exFalsyCycle) nodeR = [nodeE] := by
  with_unfolding_all decide

theorem childrenE : childrenOf (jsxNodesOf exFalsyCycle) nodeE = [nodeR] := by
  with_unfolding_all decide

/-- Total number of row-counter increments, i.e. of node visits made so
far: `dfs` bumps exactly one per-depth counter at every visit. -/
def sumVals (l : List (Nat × Nat)) : Nat := (l.map Prod.snd).sum

theorem sumVals_bump (l : List (Nat × Nat)) (k : Nat) :
    sumVals (alSet l k ((alGet l k).getD 0 + 1)) = sumVals l + 1 := by
  induction l with
  | nil => simp [alSet, alGet, sumVals]
  | cons kv rest ih =>
    obtain ⟨k₀, v₀⟩ := kv
    by_cases h : k₀ = k
    · subst h
      simp [alSet, alGet, sumVals]
      omega
    · simp only [alSet, alGet, if_neg h]
      simp [sumVals] at ih ⊢
      omega

theorem sumVals_visitDfs (st : DfsState) (nid : String) (d : Nat) :
    sumVals (visitDfs st nid d).rowIndexByDepth =
      sumVals st.rowIndexByDepth + 1 := by
  simp [visitDfs, sumVals_bump]

theorem cycle_growth : ∀ (fuel d : Nat) (st : DfsState),
    sumVals (travGo (jsxNodesOf exFalsyCycle) visitDfs fuel nodeR d
        st).rowIndexByDepth = sumVals st.rowIndexByDepth + fuel ∧
    sumVals (travGo (jsxNodesOf exFalsyCycle) visitDfs fuel nodeE d
        st).rowIndexByDepth = sumVals st.rowIndexByDepth + fuel := by
  intro fuel
  induction fuel with
  | zero => intro d st; simp [travGo]
  | succ fuel ih =>
    intro d st
    constructor
    · show sumVals ((childrenOf (jsxNodesOf exFalsyCycle) nodeR).foldl
        (fun acc c =>
          travGo (jsxNodesOf exFalsyCycle) visitDfs fuel c (d + 1) acc)
        (visitDfs st nodeR.id d)).rowIndexByDepth = _
      rw [childrenR]
      simp only [List.foldl_cons, List.foldl_nil]
      rw [(ih (d + 1) (visitDfs st nodeR.id d)).2, sumVals_visitDfs]
      omega
    · show sumVals ((childrenOf (jsxNodesOf exFalsyCycle) nodeE).foldl
        (fun acc c =>
          travGo (jsxNodesOf exFalsyCycle) visitDfs fuel c (d + 1) acc)
        (visitDfs st nodeE.id d)).rowIndexByDepth = _
      rw [childrenE]
      simp only [List.foldl_cons, List.foldl_nil]
      rw [(ih (d + 1) (visitDfs st nodeE.id d)).1, sumVals_visitDfs]
      omega

/-- Claim C5 (code bug): contrary to the claim, the traversal carries no
visited guard: on `exFalsyCycle` the node `"r"` passes the falsy root
check while the strict-equality child filter closes the cycle, so the
depth pass starting at the single root performs exactly `fuel` visits for
every fuel bound (the JS recursion never terminates), and at the model's
own budget the two jsx nodes receive three visits — some node is visited
more than once. -/
theorem claim5_nontermination_on_cycle :
    (∀ fuel : Nat,
      sumVals (travGo (jsxNodesOf exFalsyCycle) visitDfs fuel nodeR 0
          ⟨[], []⟩).rowIndexByDepth = fuel) ∧
    sumVals (dfsStateOf exFalsyCycle).rowIndexByDepth = 3 ∧
    (jsxNodesOf exFalsyCycle).length = 2 ∧
    rootsOf exFalsyCycle = [nodeR] := by
  refine ⟨?_, ?_, ?_, ?_⟩
  · intro fuel
    have h := (cycle_growth fuel 0 ⟨[], []⟩).1
    simpa [sumVals] using h
  · with_unfolding_all decide
  · with_unfolding_all decide
  · with_unfolding_all decide

/-! ## Reachability of the traversal (claims C8 and C10) -/

/-- The proposition behind the root filter `!parentId ||
!jsxNodeById.has(parentId)`. -/
def rootCondP (jsx : List GraphNode) (nid : String) : Prop :=
  getParent jsx nid = none ∨
    ∃ p, getParent jsx nid = some p ∧ (p = "" ∨ jsxHas jsx p = false)

theorem isRootJsx_rootCondP (jsx : List GraphNode) (n : GraphNode)
    (h : isRootJsx jsx n = true) : rootCondP jsx n.id := by
  rcases hh : getParent jsx n.id with _ | p
  · exact Or.inl hh
  · refine Or.inr ⟨p, hh, ?_⟩
    simp only [isRootJsx, hh] at h
    simpa using h

/-- Ids that can be visited: either the id satisfies the root condition or
its stored parent id is itself visitable. -/
inductive Rooted (jsx : List GraphNode) : String → Prop where
  | base (nid : String) (h : rootCondP jsx nid) : Rooted jsx nid
  | step (nid pid : String) (hp : Rooted jsx pid)
      (h : getParent jsx nid = some pid) : Rooted jsx nid

/-- Every key a traversal from a rooted node adds to a per-id table is
itself rooted (the table is abstracted by `keyGet`; `hv` says a visit can
only add the visited id). -/
theorem trav_rooted {σ β : Type} (jsx : List GraphNode)
    (visit : σ → String → Nat → σ) (keyGet : σ → String → Option β)
    (hv : ∀ st nid d k, (keyGet (visit st nid d) k).isSome = true →
      (keyGet st k).isSome = true ∨ k = nid) :
    ∀ (fuel : Nat) (n : GraphNode) (d : Nat) (st : σ),
      Rooted jsx n.id →
      (∀ k, (keyGet st k).isSome = true → Rooted jsx k) →
      ∀ k, (keyGet (travGo jsx visit fuel n d st) k).isSome = true →
        Rooted jsx k := by
  intro fuel
  induction fuel with
  | zero =>
    intro n d st _ hst k hk
    exact hst k (by simpa [travGo] using hk)
  | succ fuel ih =>
    intro n d st hroot hst k hk
    simp only [travGo] at hk
    have h0 : ∀ k, (keyGet (visit st n.id d) k).isSome = true →
        Rooted jsx k := by
      intro k' hk'
      rcases hv st n.id d k' hk' with h | h
      · exact hst k' h
      · exact h ▸ hroot
    have hfold : ∀ (l : List GraphNode),
        (∀ c ∈ l, getParent jsx c.id = some n.id) →
        ∀ (s : σ), (∀ k, (keyGet s k).isSome = true → Rooted jsx k) →
        ∀ k, (keyGet (l.foldl
            (fun acc c => travGo jsx visit fuel c (d + 1) acc) s) k).isSome
            = true →
          Rooted jsx k := by
      intro l
      induction l with
      | nil => intro _ s hs k' hk'; exact hs k' hk'
      | cons c cs ihl =>
        intro hl s hs k' hk'
        refine ihl (fun c' hc' => hl c' (List.mem_cons_of_mem _ hc')) _ ?_ k' hk'
        exact ih c (d + 1) s
          (Rooted.step c.id n.id hroot (hl c (List.mem_cons_self c cs))) hs
    refine hfold (childrenOf jsx n) ?_ (visit st n.id d) h0 k hk
    intro c hc
    have := List.mem_filter.mp hc
    exact of_decide_eq_true this.2

/-- Preservation along a fold, with membership of the element available. -/
theorem foldl_preserve_mem {σ α : Type} (P : σ → Prop) (step : σ → α → σ)
    (l : List α) (hs : ∀ s a, a ∈ l → P s → P (step s a)) :
    ∀ s, P s → P (l.foldl step s) := by
  induction l with
  | nil => intro s h; simpa using h
  | cons a l ih =>
    intro s h
    exact ih (fun s' a' ha' => hs s' a' (List.mem_cons_of_mem _ ha')) _
      (hs s a (List.mem_cons_self a l) h)

theorem mem_rootsOf_isRoot (L : GraphLayout) (r : GraphNode)
    (h : r ∈ rootsOf L) : isRootJsx (jsxNodesOf L) r = true :=
  of_decide_eq_true (by
    have := (List.mem_filter.mp h).2
    simpa using this)

theorem dfsKeys_rooted (L : GraphLayout) :
    ∀ k, (alGet (dfsStateOf L).depthById k).isSome = true →
      Rooted (jsxNodesOf L) k := by
  have hv : ∀ (st : DfsState) nid d k,
      (alGet (visitDfs st nid d).depthById k).isSome = true →
      (alGet st.depthById k).isSome = true ∨ k = nid := by
    intro st nid d k hk
    simp only [visitDfs] at hk
    rw [alGet_alSet] at hk
    split at hk
    · right; assumption
    · left; exact hk
  have h := foldl_preserve_mem
    (fun st : DfsState => ∀ k,
      (alGet st.depthById k).isSome = true → Rooted (jsxNodesOf L) k)
    (fun st r => travGo (jsxNodesOf L) visitDfs (fuelOf L) r 0 st)
    (rootsOf L)
    (fun s r hr hs =>
      trav_rooted (jsxNodesOf L) visitDfs (fun st k => alGet st.depthById k)
        hv (fuelOf L) r 0 s
        (Rooted.base r.id (isRootJsx_rootCondP _ r (mem_rootsOf_isRoot L r hr)))
        hs)
    ⟨[], []⟩ (by intro k hk; simp [alGet] at hk)
  exact h

theorem posKeys_rooted (L : GraphLayout) :
    ∀ k, (alGet (posStateOf L).newNodePositions k).isSome = true →
      Rooted (jsxNodesOf L) k := by
  have hv : ∀ (st : PosState) nid d k,
      (alGet (visitPos L.colX.jsx (maxDepthOf L) st nid d).newNodePositions
        k).isSome = true →
      (alGet st.newNodePositions k).isSome = true ∨ k = nid := by
    intro st nid d k hk
    simp only [visitPos] at hk
    rw [alGet_alSet] at hk
    split at hk
    · right; assumption
    · left; exact hk
  have h := foldl_preserve_mem
    (fun st : PosState => ∀ k,
      (alGet st.newNodePositions k).isSome = true → Rooted (jsxNodesOf L) k)
    (fun st r =>
      travGo (jsxNodesOf L) (visitPos L.colX.jsx (maxDepthOf L)) (fuelOf L)
        r 0 st)
    (rootsOf L)
    (fun s r hr hs =>
      trav_rooted (jsxNodesOf L) _ (fun st k => alGet st.newNodePositions k)
        hv (fuelOf L) r 0 s
        (Rooted.base r.id (isRootJsx_rootCondP _ r (mem_rootsOf_isRoot L r hr)))
        hs)
    ⟨[], []⟩ (by intro k hk; simp [alGet] at hk)
  exact h

/-! ## Claim C10: parent cycles and the traversal -/

/-- The amended cycle condition: a set of ids of jsx nodes, each of whose
stored parent id is a nonempty string belonging to the set (so the JS
falsiness root check cannot fire either). -/
def cycleMember (jsx : List GraphNode) (C : List String) : Prop :=
  ∀ a ∈ C, jsxHas jsx a = true ∧
    ∃ b ∈ C, getParent jsx a = some b ∧ b ≠ ""

theorem cycle_not_rooted (jsx : List GraphNode) (C : List String)
    (hC : cycleMember jsx C) : ∀ a ∈ C, ¬ Rooted jsx a := by
  suffices h : ∀ nid, Rooted jsx nid → nid ∈ C → False from
    fun a ha hr => h a hr ha
  intro nid hr
  induction hr with
  | base nid h =>
    intro hin
    obtain ⟨_, b, hbC, hpar, hbne⟩ := hC nid hin
    rcases h with h | ⟨p, hp, hcase⟩
    · rw [hpar] at h; cases h
    · rw [hpar] at hp
      injection hp with hpb
      subst hpb
      rcases hcase with h1 | h1
      · exact hbne h1
      · obtain ⟨hbhas, _⟩ := hC b hbC
        rw [hbhas] at h1
        cases h1
  | step nid pid hp hpar ih =>
    intro hin
    obtain ⟨_, b, hbC, hpar', hbne⟩ := hC nid hin
    rw [hpar] at hpar'
    injection hpar' with hb
    exact ih (hb ▸ hbC)

/-- The cyclic pair with ids `"a"`/`"b"` plus an ordinary jsx root; used
to witness the amended cycle claim. -/
def exTwoCycle : GraphLayout :=
  { nodes := [mkNode "a" "jsx" 7 8 (some "b"), mkNode "b" "jsx" 9 10 (some "a"),
              mkNode "c" "jsx" 0 0 none]
    edges := [], width := 800, height := 600, colX := colX0 }

/-- Claim C10 counterexample: in `exFalsyCycle` every jsx node's parent id
resolves to another jsx node of the layout (the claim's cycle condition),
yet `"r"` still qualifies as a root through the falsiness check, both
traversal passes reach it (it gets a depth and a position), and the output
x coordinates differ from the input ones. -/
theorem claim10_counterexample :
    (∀ a ∈ ["r", ""], jsxHas (jsxNodesOf exFalsyCycle) a = true ∧
      ∃ b ∈ ["r", ""], b ≠ a ∧
        getParent (jsxNodesOf exFalsyCycle) a = some b) ∧
    (alGet (dfsStateOf exFalsyCycle).depthById "r").isSome = true ∧
    (posOf exFalsyCycle "r").isSome = true ∧
    ((applyJsxTreeLayout exFalsyCycle).nodes.map fun n => n.x) ≠
      (exFalsyCycle.nodes.map fun n => n.x) := by
  with_unfolding_all decide

/-- Claim C10 (amended): jsx nodes whose parent references form a cycle in
which every member's stored parent id is a *nonempty* string naming
another jsx node are never reached by either traversal pass: they receive
no depth and no position, and they appear in the output at the same list
position with all fields (in particular `x`/`y`) unchanged. -/
theorem claim10_amended_cycle_untouched (L : GraphLayout) (C : List String)
    (hC : cycleMember (jsxNodesOf L) C) :
    (∀ a ∈ C, alGet (dfsStateOf L).depthById a = none ∧ posOf L a = none) ∧
    List.Forall₂ (fun n n' => n.id ∈ C → n' = n) L.nodes
      (applyJsxTreeLayout L).nodes := by
  have hnr := cycle_not_rooted _ C hC
  have hdepth : ∀ a ∈ C, alGet (dfsStateOf L).depthById a = none := by
    intro a ha
    by_contra h
    exact hnr a ha (dfsKeys_rooted L a (Option.isSome_iff_ne_none.mpr h))
  have hpos : ∀ a ∈ C, posOf L a = none := by
    intro a ha
    by_contra h
    exact hnr a ha (posKeys_rooted L a (Option.isSome_iff_ne_none.mpr h))
  refine ⟨fun a ha => ⟨hdepth a ha, hpos a ha⟩, ?_⟩
  unfold applyJsxTreeLayout
  split
  · exact List.forall₂_same.mpr (fun n _ _ => rfl)
  · unfold updatedNodes
    rw [List.forall₂_map_right_iff]
    refine List.forall₂_same.mpr ?_
    intro n _ hin
    have h := hpos n.id hin
    unfold posOf at h
    unfold applyPos
    rw [h]

/-- Witness for the amended C10 on a concrete two-cycle with nonempty ids. -/
theorem claim10_witness :
    cycleMember (jsxNodesOf exTwoCycle) ["a", "b"] ∧
    ((∀ a ∈ ["a", "b"],
        alGet (dfsStateOf exTwoCycle).depthById a = none ∧
        posOf exTwoCycle a = none) ∧
      List.Forall₂ (fun n n' => n.id ∈ ["a", "b"] → n' = n) exTwoCycle.nodes
        (applyJsxTreeLayout exTwoCycle).nodes) := by
  have hC : cycleMember (jsxNodesOf exTwoCycle) ["a", "b"] := by
    unfold cycleMember
    with_unfolding_all decide
  exact ⟨hC, claim10_amended_cycle_untouched exTwoCycle ["a", "b"] hC⟩

/-! ## Lookup lemmas and untouched keys (claim C8) -/

theorem lookupNode_foldl_isSome (nid : String) (l : List GraphNode)
    (acc : Option GraphNode) (h : acc.isSome = true) :
    (l.foldl (fun acc n => if n.id = nid then some n else acc) acc).isSome
      = true := by
  refine foldl_preserve (fun o : Option GraphNode => o.isSome = true) _ ?_ l acc h
  intro s a hs
  split
  · rfl
  · exact hs

theorem lookupNode_isSome_of_mem (l : List GraphNode) (n : GraphNode)
    (h : n ∈ l) : (lookupNode l n.id).isSome = true := by
  unfold lookupNode
  induction l with
  | nil => cases h
  | cons c cs ih =>
    simp only [List.foldl_cons]
    rcases List.mem_cons.mp h with hh | hmem
    · subst hh
      rw [if_pos rfl]
      exact lookupNode_foldl_isSome n.id cs (some n) rfl
    · by_cases hc : c.id = n.id
      · rw [if_pos hc]
        exact lookupNode_foldl_isSome n.id cs _ rfl
      · rw [if_neg hc]
        exact ih hmem

theorem mem_jsxHas (jsx : List GraphNode) (n : GraphNode) (h : n ∈ jsx) :
    jsxHas jsx n.id = true :=
  lookupNode_isSome_of_mem jsx n h

/-- If the target id's parent is absent or dangling, no child of a node
present in the jsx map can carry the target id (children's parents are
always present jsx ids). -/
theorem children_avoid (jsx : List GraphNode) (tid : String)
    (htid : getParent jsx tid = none ∨
      ∃ p, getParent jsx tid = some p ∧ jsxHas jsx p = false)
    (n : GraphNode) (hhas : jsxHas jsx n.id = true) :
    ∀ c ∈ childrenOf jsx n, c.id ≠ tid ∧ jsxHas jsx c.id = true := by
  intro c hc
  have hmemf := List.mem_filter.mp hc
  have hpar : getParent jsx c.id = some n.id := of_decide_eq_true hmemf.2
  refine ⟨?_, mem_jsxHas jsx c hmemf.1⟩
  intro hcid
  rw [hcid] at hpar
  rcases htid with h | ⟨p, hp, hpf⟩
  · rw [h] at hpar; cases hpar
  · rw [hp] at hpar
    injection hpar with he
    rw [he, hhas] at hpf
    cases hpf

/-- A traversal started strictly away from the target id (and inside the
jsx map) never changes what a per-id table stores at the target id. -/
theorem trav_notouch {σ β : Type} (jsx : List GraphNode)
    (visit : σ → String → Nat → σ) (g : σ → Option β) (tid : String)
    (hv : ∀ st nid d, nid ≠ tid → g (visit st nid d) = g st)
    (htid : getParent jsx tid = none ∨
      ∃ p, getParent jsx tid = some p ∧ jsxHas jsx p = false) :
    ∀ (fuel : Nat) (n : GraphNode) (d : Nat) (st : σ),
      n.id ≠ tid → jsxHas jsx n.id = true →
      g (travGo jsx visit fuel n d st) = g st := by
  intro fuel
  induction fuel with
  | zero => intro n d st _ _; simp [travGo]
  | succ fuel ih =>
    intro n d st hne hhas
    simp only [travGo]
    have hch := children_avoid jsx tid htid n hhas
    have hfold : ∀ (l : List GraphNode),
        (∀ c ∈ l, c.id ≠ tid ∧ jsxHas jsx c.id = true) →
        ∀ s, g (l.foldl
          (fun acc c => travGo jsx visit fuel c (d + 1) acc) s) = g s := by
      intro l
      induction l with
      | nil => intro _ s; simp
      | cons c cs ihl =>
        intro hl s
        simp only [List.foldl_cons]
        rw [ihl (fun c' h' => hl c' (List.mem_cons_of_mem _ h')) _,
          ih c (d + 1) s (hl c (List.mem_cons_self c cs)).1
            (hl c (List.mem_cons_self c cs)).2]
    rw [hfold (childrenOf jsx n) hch (visit st n.id d), hv st n.id d hne]

theorem visitDfs_depth_notouch (tid : String) :
    ∀ (s : DfsState) (nid : String) (d : Nat), nid ≠ tid →
      alGet (visitDfs s nid d).depthById tid = alGet s.depthById tid := by
  intro s nid d h
  simp only [visitDfs]
  rw [alGet_alSet, if_neg (fun hh => h hh.symm)]

theorem visitPos_pos_notouch (b : Rat) (D : Nat) (tid : String) :
    ∀ (s : PosState) (nid : String) (d : Nat), nid ≠ tid →
      alGet (visitPos b D s nid d).newNodePositions tid =
        alGet s.newNodePositions tid := by
  intro s nid d h
  simp only [visitPos]
  rw [alGet_alSet, if_neg (fun hh => h hh.symm)]

theorem fold_notouch {σ β : Type} (jsx : List GraphNode)
    (visit : σ → String → Nat → σ) (g : σ → Option β) (tid : String)
    (hv : ∀ st nid d, nid ≠ tid → g (visit st nid d) = g st)
    (htid : getParent jsx tid = none ∨
      ∃ p, getParent jsx tid = some p ∧ jsxHas jsx p = false)
    (fuel d : Nat) :
    ∀ (l : List GraphNode), (∀ c ∈ l, c.id ≠ tid ∧ jsxHas jsx c.id = true) →
      ∀ s, g (l.foldl (fun acc c => travGo jsx visit fuel c d acc) s) = g s := by
  intro l
  induction l with
  | nil => intro _ s; simp
  | cons c cs ihl =>
    intro hl s
    simp only [List.foldl_cons]
    rw [ihl (fun c' h' => hl c' (List.mem_cons_of_mem _ h')) _,
      trav_notouch jsx visit g tid hv htid fuel c d s
        (hl c (List.mem_cons_self c cs)).1 (hl c (List.mem_cons_self c cs)).2]

theorem travDfs_root_sets (jsx : List GraphNode) (tid : String)
    (htid : getParent jsx tid = none ∨
      ∃ p, getParent jsx tid = some p ∧ jsxHas jsx p = false)
    (hhastid : jsxHas jsx tid = true) :
    ∀ (fuel : Nat) (n : GraphNode) (st : DfsState), n.id = tid →
      alGet (travGo jsx visitDfs (fuel + 1) n 0 st).depthById tid = some 0 := by
  intro fuel n st hn
  simp only [travGo]
  have hch := children_avoid jsx tid htid n (by rw [hn]; exact hhastid)
  rw [fold_notouch jsx visitDfs (fun s => alGet s.depthById tid) tid
      (visitDfs_depth_notouch tid) htid fuel (0 + 1) (childrenOf jsx n) hch
      (visitDfs st n.id 0)]
  simp only [visitDfs]
  rw [hn, alGet_alSet, if_pos rfl]

theorem travPos_root_sets (jsx : List GraphNode) (b : Rat) (D : Nat)
    (tid : String)
    (htid : getParent jsx tid = none ∨
      ∃ p, getParent jsx tid = some p ∧ jsxHas jsx p = false)
    (hhastid : jsxHas jsx tid = true) :
    ∀ (fuel : Nat) (n : GraphNode) (st : PosState), n.id = tid →
      (alGet (travGo jsx (visitPos b D) (fuel + 1) n 0
        st).newNodePositions tid).isSome = true := by
  intro fuel n st hn
  simp only [travGo]
  have hch := children_avoid jsx tid htid n (by rw [hn]; exact hhastid)
  rw [fold_notouch jsx (visitPos b D) (fun s => alGet s.newNodePositions tid)
      tid (visitPos_pos_notouch b D tid) htid fuel (0 + 1) (childrenOf jsx n)
      hch (visitPos b D st n.id 0)]
  simp only [visitPos]
  rw [hn, alGet_alSet, if_pos rfl]
  rfl

/-- The transformer never drops or adds nodes. -/
theorem applyJsx_nodes_length (L : GraphLayout) :
    (applyJsxTreeLayout L).nodes.length = L.nodes.length := by
  unfold applyJsxTreeLayout
  split
  · rfl
  · simp [updatedNodes]

/-! ## Claim C8 -/

/-- Claim C8: a jsx node whose stored parent id is absent, or does not
resolve to a jsx node of the layout, is treated as a forest root: the
depth pass records depth `0` for its id, the position pass records a
position for it, and the output has as many nodes as the input (nothing is
dropped; the transformer is total, so no error can be raised). -/
theorem claim8_dangling_parent_root (L : GraphLayout) (n : GraphNode)
    (hmem : n ∈ L.nodes) (hkind : n.kind = "jsx")
    (hcond : getParent (jsxNodesOf L) n.id = none ∨
      ∃ p, getParent (jsxNodesOf L) n.id = some p ∧
        jsxHas (jsxNodesOf L) p = false) :
    alGet (dfsStateOf L).depthById n.id = some 0 ∧
    (posOf L n.id).isSome = true ∧
    (applyJsxTreeLayout L).nodes.length = L.nodes.length := by
  have hj : n ∈ jsxNodesOf L := List.mem_filter.mpr ⟨hmem, by simp [hkind]⟩
  have hhastid : jsxHas (jsxNodesOf L) n.id = true := mem_jsxHas _ n hj
  have hroot : isRootJsx (jsxNodesOf L) n = true := by
    rcases hcond with h | ⟨p, hp, hpf⟩
    · simp [isRootJsx, h]
    · simp [isRootJsx, hp, hpf]
  have hrootm : n ∈ rootsOf L := List.mem_filter.mpr ⟨hj, by simp [hroot]⟩
  obtain ⟨l₁, l₂, hsplit⟩ := List.append_of_mem hrootm
  have hl₂mem : ∀ r ∈ l₂, r ∈ jsxNodesOf L := by
    intro r hr
    have : r ∈ rootsOf L := by
      rw [hsplit]
      exact List.mem_append_right _ (List.mem_cons_of_mem _ hr)
    exact (List.mem_filter.mp this).1
  have hdepth : alGet (dfsStateOf L).depthById n.id = some 0 := by
    unfold dfsStateOf
    rw [hsplit, List.foldl_append]
    simp only [List.foldl_cons]
    refine foldl_preserve_mem
      (fun st : DfsState => alGet st.depthById n.id = some 0) _ l₂ ?_ _ ?_
    · intro s r hrl hs
      by_cases hr : r.id = n.id
      · exact travDfs_root_sets _ n.id hcond hhastid
          ((jsxNodesOf L).length) r s hr
      · rw [trav_notouch (jsxNodesOf L) visitDfs
          (fun s => alGet s.depthById n.id) n.id (visitDfs_depth_notouch n.id)
          hcond (fuelOf L) r 0 s hr (mem_jsxHas _ r (hl₂mem r hrl))]
        exact hs
    · exact travDfs_root_sets _ n.id hcond hhastid
        ((jsxNodesOf L).length) n _ rfl
  have hpos : (posOf L n.id).isSome = true := by
    unfold posOf posStateOf
    rw [hsplit, List.foldl_append]
    simp only [List.foldl_cons]
    refine foldl_preserve_mem
      (fun st : PosState => (alGet st.newNodePositions n.id).isSome = true)
      _ l₂ ?_ _ ?_
    · intro s r hrl hs
      by_cases hr : r.id = n.id
      · exact travPos_root_sets _ L.colX.jsx (maxDepthOf L) n.id hcond hhastid
          ((jsxNodesOf L).length) r s hr
      · rw [trav_notouch (jsxNodesOf L) (visitPos L.colX.jsx (maxDepthOf L))
          (fun s => alGet s.newNodePositions n.id) n.id
          (visitPos_pos_notouch L.colX.jsx (maxDepthOf L) n.id)
          hcond (fuelOf L) r 0 s hr (mem_jsxHas _ r (hl₂mem r hrl))]
        exact hs
    · exact travPos_root_sets _ L.colX.jsx (maxDepthOf L) n.id hcond hhastid
        ((jsxNodesOf L).length) n _ rfl
  exact ⟨hdepth, hpos, applyJsx_nodes_length L⟩

/-- A jsx node whose parent id names nothing in the layout. -/
def exDangling : GraphLayout :=
  { nodes := [mkNode "a" "jsx" 0 0 (some "ghost")], edges := [],
    width := 800, height := 600, colX := colX0 }

/-- Witness for C8 on the dangling-parent layout. -/
theorem claim8_witness :
    ((mkNode "a" "jsx" 0 0 (some "ghost")) ∈ exDangling.nodes ∧
      (mkNode "a" "jsx" 0 0 (some "ghost")).kind = "jsx") ∧
    (alGet (dfsStateOf exDangling).depthById "a" = some 0 ∧
      (posOf exDangling "a").isSome = true ∧
      (applyJsxTreeLayout exDangling).nodes.length =
        exDangling.nodes.length) := by
  have h := claim8_dangling_parent_root exDangling
    (mkNode "a" "jsx" 0 0 (some "ghost"))
    (by with_unfolding_all decide) (by with_unfolding_all decide)
    (Or.inr ⟨"ghost", by with_unfolding_all decide,
      by with_unfolding_all decide⟩)
  exact ⟨⟨by with_unfolding_all decide, by with_unfolding_all decide⟩, h⟩

/-! ## Claim C4 -/

/-- The non-passthrough unfolding of the transformer. -/
theorem applyJsx_def_nonempty (L : GraphLayout)
    (h : ¬ (jsxNodesOf L).isEmpty = true) :
    applyJsxTreeLayout L =
      { nodes := updatedNodes L
        edges := L.edges.map (reconcileEdge (updatedNodes L))
        width := widthOut L
        height := heightOut L
        colX := L.colX } := by
  unfold applyJsxTreeLayout
  rw [if_neg h]

/-- Column anchors whose jsx column sits at a negative x. -/
def colXNeg : ColX := ⟨80, 160, 240, 320, -100⟩

/-- A single jsx root laid out around the negative jsx anchor. -/
def exNegCol : GraphLayout :=
  { nodes := [mkNode "j" "jsx" 0 0 none], edges := [], width := 800,
    height := 600, colX := colXNeg }

/-- Claim C4 counterexample: with `colX.jsx = -100` the repositioned jsx
node has `x = -100 < 0`, outside `[0, width] × [0, height]`. -/
theorem claim4_counterexample :
    ∃ n ∈ (applyJsxTreeLayout exNegCol).nodes, n.kind = "jsx" ∧
      ¬ (0 ≤ n.x ∧ n.x ≤ (applyJsxTreeLayout exNegCol).width ∧
         0 ≤ n.y ∧ n.y ≤ (applyJsxTreeLayout exNegCol).height) := by
  with_unfolding_all decide

/-- Claim C4 (amended): provided the nodes' box sizes are nonnegative,
every jsx node's input coordinates are nonnegative, and the jsx column
anchor is at least `(D * 160)/2` (the half-span of the computed depth
range), every jsx node of the output lies inside
`[0, width] × [0, height]`. -/
theorem claim4_amended_bounds (L : GraphLayout)
    (hdims : ∀ n ∈ L.nodes, 0 ≤ n.width ∧ 0 ≤ n.height)
    (hanchor : ((maxDepthOf L : Rat) * 160) / 2 ≤ L.colX.jsx)
    (hjsx : ∀ n ∈ L.nodes, n.kind = "jsx" → 0 ≤ n.x ∧ 0 ≤ n.y) :
    ∀ n ∈ (applyJsxTreeLayout L).nodes, n.kind = "jsx" →
      0 ≤ n.x ∧ n.x ≤ (applyJsxTreeLayout L).width ∧
      0 ≤ n.y ∧ n.y ≤ (applyJsxTreeLayout L).height := by
  by_cases hemp : (jsxNodesOf L).isEmpty = true
  · intro n hn hk
    have hz : jsxNodesOf L = [] := List.isEmpty_iff.mp hemp
    have hn' : n ∈ L.nodes := by
      have : applyJsxTreeLayout L = L := by
        unfold applyJsxTreeLayout
        rw [if_pos hemp]
      rw [this] at hn
      exact hn
    have hmemj : n ∈ jsxNodesOf L := List.mem_filter.mpr ⟨hn', by simp [hk]⟩
    rw [hz] at hmemj
    cases hmemj
  · rw [applyJsx_def_nonempty L hemp]
    intro n hn hk
    simp only at hn hk ⊢
    unfold updatedNodes at hn
    obtain ⟨m, hm, heq⟩ := List.mem_map.mp hn
    have hup : n ∈ updatedNodes L := by
      unfold updatedNodes
      exact List.mem_map.mpr ⟨m, hm, heq⟩
    have hwbound : n.x + n.width / 2 + 40 ≤ widthOut L :=
      foldMax_ge_mem _ (updatedNodes L) L.width n hup
    have hhbound : n.y + n.height / 2 + 40 ≤ heightOut L :=
      foldMax_ge_mem _ (updatedNodes L) L.height n hup
    have hwdim : 0 ≤ n.width ∧ 0 ≤ n.height := by
      cases hal : alGet (posStateOf L).newNodePositions m.id with
      | some pr =>
        have : n = { m with x := pr.1, y := pr.2 } := by
          rw [← heq]; simp [applyPos, hal]
        rw [this]
        exact hdims m hm
      | none =>
        have : n = m := by rw [← heq]; simp [applyPos, hal]
        rw [this]
        exact hdims m hm
    have hxupper : n.x ≤ widthOut L := by
      have h2 : (0 : Rat) ≤ n.width / 2 := div_nonneg hwdim.1 (by norm_num)
      linarith
    have hyupper : n.y ≤ heightOut L := by
      have h2 : (0 : Rat) ≤ n.height / 2 := div_nonneg hwdim.2 (by norm_num)
      linarith
    have hlower : 0 ≤ n.x ∧ 0 ≤ n.y := by
      cases hal : alGet (posStateOf L).newNodePositions m.id with
      | some pr =>
        have hn2 : n = { m with x := pr.1, y := pr.2 } := by
          rw [← heq]; simp [applyPos, hal]
        obtain ⟨d, r, hx, hy⟩ := posState_shape L m.id pr hal
        rw [hn2]
        constructor
        · show (0 : Rat) ≤ pr.1
          rw [hx]
          have hd : (0 : Rat) ≤ (d : Rat) * 160 := by positivity
          linarith
        · show (0 : Rat) ≤ pr.2
          rw [hy]
          have hr : (0 : Rat) ≤ (r : Rat) * 40 := by positivity
          linarith
      | none =>
        have hn2 : n = m := by rw [← heq]; simp [applyPos, hal]
        rw [hn2] at hk ⊢
        exact hjsx m hm hk
    exact ⟨hlower.1, hxupper, hlower.2, hyupper⟩

/-- A well-behaved two-node jsx chain used to witness the amended C4. -/
def exGood : GraphLayout :=
  { nodes := [mkNode "a" "jsx" 400 80 none, mkNode "b" "jsx" 400 120 (some "a")]
    edges := [], width := 800, height := 600, colX := colX0 }

/-- Witness for the amended C4 on `exGood`. -/
theorem claim4_witness :
    (∀ n ∈ exGood.nodes, 0 ≤ n.width ∧ 0 ≤ n.height) ∧
    (((maxDepthOf exGood : Rat) * 160) / 2 ≤ exGood.colX.jsx) ∧
    (∀ n ∈ exGood.nodes, n.kind = "jsx" → 0 ≤ n.x ∧ 0 ≤ n.y) ∧
    (∀ n ∈ (applyJsxTreeLayout exGood).nodes, n.kind = "jsx" →
      0 ≤ n.x ∧ n.x ≤ (applyJsxTreeLayout exGood).width ∧
      0 ≤ n.y ∧ n.y ≤ (applyJsxTreeLayout exGood).height) := by
  have h1 : ∀ n ∈ exGood.nodes, 0 ≤ n.width ∧ 0 ≤ n.height := by
    with_unfolding_all decide
  have h2 : ((maxDepthOf exGood : Rat) * 160) / 2 ≤ exGood.colX.jsx := by
    with_unfolding_all decide
  have h3 : ∀ n ∈ exGood.nodes, n.kind = "jsx" → 0 ≤ n.x ∧ 0 ≤ n.y := by
    with_unfolding_all decide
  exact ⟨h1, h2, h3, claim4_amended_bounds exGood h1 h2 h3⟩

/-! ## Edge endpoint reconciliation (claims C3 and C9) -/

/-- The endpoint relation the rewritten edges satisfy: a nonempty node
reference that resolves in the (post-transform) node map is snapped to
that node's centre, everything else is passed through unchanged. -/
def epSpec (nodes : List GraphNode) (ep ep' : EdgeEndpoint) : Prop :=
  match ep.nodeId with
  | none => ep' = ep
  | some nid =>
      if nid = "" then ep' = ep
      else
        match lookupNode nodes nid with
        | some n => ep' = { ep with x := n.x, y := n.y }
        | none => ep' = ep

theorem reconcileEp_spec (nodes : List GraphNode) (ep : EdgeEndpoint) :
    epSpec nodes ep (reconcileEp nodes ep) := by
  unfold epSpec reconcileEp
  cases hep : ep.nodeId with
  | none => rfl
  | some nid =>
    by_cases h : nid = ""
    · simp [h]
    · simp only [if_neg h]
      cases hl : lookupNode nodes nid with
      | some n => rfl
      | none => rfl

theorem reconcileEp_nodeId (nodes : List GraphNode) (ep : EdgeEndpoint) :
    (reconcileEp nodes ep).nodeId = ep.nodeId := by
  unfold reconcileEp
  split
  · rfl
  · split
    · rfl
    · split <;> rfl

theorem reconcileEp_snap (nodes : List GraphNode) (ep : EdgeEndpoint)
    (nid : String) (n : GraphNode) (hnid : ep.nodeId = some nid)
    (hne : nid ≠ "") (hlook : lookupNode nodes nid = some n) :
    (reconcileEp nodes ep).x = n.x ∧ (reconcileEp nodes ep).y = n.y := by
  simp [reconcileEp, hnid, hne, hlook]

/-- A jsx root plus an untouched non-jsx node `"n"` at `(10,10)` with an
edge endpoint holding the stale snapshot `(0,0)` of `"n"`. -/
def exStaleEdge : GraphLayout :=
  { nodes := [mkNode "j" "jsx" 0 0 none, mkNode "n" "state" 10 10 none]
    edges := [⟨"e1", "flow", none, ⟨some "n", 0, 0⟩, ⟨none, 1, 1⟩⟩]
    width := 800, height := 600, colX := colX0 }

/-! ## Claim C3 -/

/-- Claim C3 counterexample: node `"n"` is not repositioned (it gets no
entry in the position map and keeps `(10,10)`), yet the endpoint that
references it is rewritten from its cached `(0,0)` to `(10,10)` — the
claim's "unchanged" clause for endpoints of non-repositioned nodes fails. -/
theorem claim3_counterexample :
    posOf exStaleEdge "n" = none ∧
    ((applyJsxTreeLayout exStaleEdge).nodes.map fun n => (n.id, n.x, n.y)) =
      [("j", (400 : Rat), (80 : Rat)), ("n", 10, 10)] ∧
    (exStaleEdge.edges.map fun e => (e.fromEp.x, e.fromEp.y)) =
      [((0 : Rat), (0 : Rat))] ∧
    ((applyJsxTreeLayout exStaleEdge).edges.map fun e =>
      (e.fromEp.x, e.fromEp.y)) = [((10 : Rat), (10 : Rat))] := by
  with_unfolding_all decide

/-- Claim C3 (amended): when the layout contains a jsx node, every output
edge endpoint with a nonempty node reference resolving in the layout is
snapped to that node's post-transform centre — also when the node was not
repositioned, so a stale cached snapshot is rewritten; endpoints with no
reference, an empty-string reference, or an unresolved reference are
unchanged.  (With no jsx node the whole layout, hence every endpoint, is
unchanged.) -/
theorem claim3_amended_edge_endpoints (L : GraphLayout)
    (hne : jsxNodesOf L ≠ []) :
    List.Forall₂
      (fun e e' =>
        epSpec (applyJsxTreeLayout L).nodes e.fromEp e'.fromEp ∧
        epSpec (applyJsxTreeLayout L).nodes e.toEp e'.toEp)
      L.edges (applyJsxTreeLayout L).edges := by
  have h : ¬ (jsxNodesOf L).isEmpty = true := by
    intro hh
    exact hne (List.isEmpty_iff.mp hh)
  rw [applyJsx_def_nonempty L h]
  simp only
  rw [List.forall₂_map_right_iff]
  refine List.forall₂_same.mpr ?_
  intro e _
  exact ⟨reconcileEp_spec _ _, reconcileEp_spec _ _⟩

/-- Witness for the amended C3 on `exStaleEdge`. -/
theorem claim3_witness :
    jsxNodesOf exStaleEdge ≠ [] ∧
    List.Forall₂
      (fun e e' =>
        epSpec (applyJsxTreeLayout exStaleEdge).nodes e.fromEp e'.fromEp ∧
        epSpec (applyJsxTreeLayout exStaleEdge).nodes e.toEp e'.toEp)
      exStaleEdge.edges (applyJsxTreeLayout exStaleEdge).edges :=
  ⟨by with_unfolding_all decide,
   claim3_amended_edge_endpoints exStaleEdge (by with_unfolding_all decide)⟩

/-! ## Claim C9 -/

/-- Claim C9 counterexample: in a layout without jsx nodes the transformer
is the identity, so an output endpoint referencing node `"a"` keeps its
stale `(0,0)` snapshot although the node sits at `(100,100)`. -/
theorem claim9_counterexample :
    ((applyJsxTreeLayout exNoJsx).edges.map fun e =>
      (e.fromEp.nodeId, e.fromEp.x, e.fromEp.y)) =
      [(some "a", (0 : Rat), (0 : Rat))] ∧
    ((applyJsxTreeLayout exNoJsx).nodes.map fun n => (n.id, n.x, n.y)) =
      [("a", (100 : Rat), (100 : Rat))] := by
  with_unfolding_all decide

/-- Claim C9 (amended): provided the layout contains a jsx node and the
endpoint's nodeId is a nonempty string resolving to a node of the output,
the endpoint's cached coordinates equal that node's current centre,
whether or not the node was repositioned. -/
theorem claim9_amended_endpoint_snap (L : GraphLayout)
    (hne : jsxNodesOf L ≠ []) :
    ∀ e ∈ (applyJsxTreeLayout L).edges,
      (∀ nid n, e.fromEp.nodeId = some nid → nid ≠ "" →
        lookupNode (applyJsxTreeLayout L).nodes nid = some n →
        e.fromEp.x = n.x ∧ e.fromEp.y = n.y) ∧
      (∀ nid n, e.toEp.nodeId = some nid → nid ≠ "" →
        lookupNode (applyJsxTreeLayout L).nodes nid = some n →
        e.toEp.x = n.x ∧ e.toEp.y = n.y) := by
  have h : ¬ (jsxNodesOf L).isEmpty = true := by
    intro hh
    exact hne (List.isEmpty_iff.mp hh)
  rw [applyJsx_def_nonempty L h]
  simp only
  intro e he
  obtain ⟨e0, _, rfl⟩ := List.mem_map.mp he
  constructor
  · intro nid n hnid hne' hlook
    have hid : e0.fromEp.nodeId = some nid := by
      rw [← reconcileEp_nodeId (updatedNodes L) e0.fromEp]
      exact hnid
    exact reconcileEp_snap (updatedNodes L) e0.fromEp nid n hid hne' hlook
  · intro nid n hnid hne' hlook
    have hid : e0.toEp.nodeId = some nid := by
      rw [← reconcileEp_nodeId (updatedNodes L) e0.toEp]
      exact hnid
    exact reconcileEp_snap (updatedNodes L) e0.toEp nid n hid hne' hlook

/-- Witness for the amended C9 on `exStaleEdge`. -/
theorem claim9_witness :
    jsxNodesOf exStaleEdge ≠ [] ∧
    (∀ e ∈ (applyJsxTreeLayout exStaleEdge).edges,
      (∀ nid n, e.fromEp.nodeId = some nid → nid ≠ "" →
        lookupNode (applyJsxTreeLayout exStaleEdge).nodes nid = some n →
        e.fromEp.x = n.x ∧ e.fromEp.y = n.y) ∧
      (∀ nid n, e.toEp.nodeId = some nid → nid ≠ "" →
        lookupNode (applyJsxTreeLayout exStaleEdge).nodes nid = some n →
        e.toEp.x = n.x ∧ e.toEp.y = n.y)) :=
  ⟨by with_unfolding_all decide,
   claim9_amended_endpoint_snap exStaleEdge (by with_unfolding_all decide)⟩

/-! ## Invariance of the pipeline under id/kind/parent-preserving maps
(claim C6).  The transformer only rewrites `x`/`y`, so running it a second
time recomputes exactly the same traversal data. -/

theorem lookupNode_map_aux (f : GraphNode → GraphNode)
    (hid : ∀ n, (f n).id = n.id) (nid : String) :
    ∀ (l : List GraphNode) (acc : Option GraphNode),
      (l.map f).foldl (fun acc n => if n.id = nid then some n else acc)
          (Option.map f acc) =
        Option.map f
          (l.foldl (fun acc n => if n.id = nid then some n else acc) acc) := by
  intro l
  induction l with
  | nil => intro acc; rfl
  | cons c cs ih =>
    intro acc
    simp only [List.map_cons, List.foldl_cons]
    by_cases h : c.id = nid
    · rw [if_pos (by rw [hid c]; exact h), if_pos h]
      exact ih (some c)
    · rw [if_neg (by rw [hid c]; exact h), if_neg h]
      exact ih acc

theorem lookupNode_map (f : GraphNode → GraphNode)
    (hid : ∀ n, (f n).id = n.id) (l : List GraphNode) (nid : String) :
    lookupNode (l.map f) nid = Option.map f (lookupNode l nid) :=
  lookupNode_map_aux f hid nid l none

theorem getParent_map (f : GraphNode → GraphNode)
    (hid : ∀ n, (f n).id = n.id)
    (hpar : ∀ n, (f n).jsxParentId = n.jsxParentId) (l : List GraphNode)
    (nid : String) : getParent (l.map f) nid = getParent l nid := by
  unfold getParent
  rw [lookupNode_map f hid]
  cases lookupNode l nid with
  | none => rfl
  | some m => exact hpar m

theorem jsxHas_map (f : GraphNode → GraphNode)
    (hid : ∀ n, (f n).id = n.id) (l : List GraphNode) (p : String) :
    jsxHas (l.map f) p = jsxHas l p := by
  unfold jsxHas
  rw [lookupNode_map f hid]
  cases lookupNode l p with
  | none => rfl
  | some m => rfl

theorem childrenOf_map (f : GraphNode → GraphNode)
    (hid : ∀ n, (f n).id = n.id)
    (hpar : ∀ n, (f n).jsxParentId = n.jsxParentId) (l : List GraphNode)
    (n : GraphNode) : childrenOf (l.map f) (f n) = (childrenOf l n).map f := by
  unfold childrenOf
  rw [List.filter_map]
  congr 1
  refine List.filter_congr ?_
  intro a _
  simp only [Function.comp]
  rw [hid a, hid n, getParent_map f hid hpar l]

theorem isRootJsx_map (f : GraphNode → GraphNode)
    (hid : ∀ n, (f n).id = n.id)
    (hpar : ∀ n, (f n).jsxParentId = n.jsxParentId) (l : List GraphNode)
    (n : GraphNode) : isRootJsx (l.map f) (f n) = isRootJsx l n := by
  unfold isRootJsx
  rw [hid n, getParent_map f hid hpar l]
  cases getParent l n.id with
  | none => rfl
  | some p =>
    show (decide (p = "") || !(jsxHas (l.map f) p)) =
      (decide (p = "") || !(jsxHas l p))
    rw [jsxHas_map f hid]

theorem roots_filter_map (f : GraphNode → GraphNode)
    (hid : ∀ n, (f n).id = n.id)
    (hpar : ∀ n, (f n).jsxParentId = n.jsxParentId) (l : List GraphNode) :
    ((l.map f).filter fun n => isRootJsx (l.map f) n) =
      (l.filter fun n => isRootJsx l n).map f := by
  rw [List.filter_map]
  congr 1
  refine List.filter_congr ?_
  intro a _
  simp only [Function.comp]
  rw [isRootJsx_map f hid hpar l a]

theorem travGo_map {σ : Type} (visit : σ → String → Nat → σ)
    (f : GraphNode → GraphNode) (hid : ∀ n, (f n).id = n.id)
    (hpar : ∀ n, (f n).jsxParentId = n.jsxParentId) (l : List GraphNode) :
    ∀ (fuel : Nat) (n : GraphNode) (d : Nat) (st : σ),
      travGo (l.map f) visit fuel (f n) d st = travGo l visit fuel n d st := by
  intro fuel
  induction fuel with
  | zero => intro n d st; rfl
  | succ fuel ih =>
    intro n d st
    simp only [travGo]
    rw [childrenOf_map f hid hpar l n, hid n, List.foldl_map]
    congr 1
    funext acc c
    exact ih c (d + 1) acc

theorem applyPos_id (pm : List (String × (Rat × Rat))) (n : GraphNode) :
    (applyPos pm n).id = n.id := by
  unfold applyPos
  split <;> rfl

theorem applyPos_kind (pm : List (String × (Rat × Rat))) (n : GraphNode) :
    (applyPos pm n).kind = n.kind := by
  unfold applyPos
  split <;> rfl

theorem applyPos_parent (pm : List (String × (Rat × Rat))) (n : GraphNode) :
    (applyPos pm n).jsxParentId = n.jsxParentId := by
  unfold applyPos
  split <;> rfl

theorem applyPos_idem (pm : List (String × (Rat × Rat))) (n : GraphNode) :
    applyPos pm (applyPos pm n) = applyPos pm n := by
  cases h : alGet pm n.id with
  | none => simp [applyPos, h]
  | some p => simp [applyPos, h]

theorem reconcileEp_idem (ns : List GraphNode) (ep : EdgeEndpoint) :
    reconcileEp ns (reconcileEp ns ep) = reconcileEp ns ep := by
  cases hep : ep.nodeId with
  | none => simp [reconcileEp, hep]
  | some nid =>
    by_cases h : nid = ""
    · simp [reconcileEp, hep, h]
    · cases hl : lookupNode ns nid with
      | none => simp [reconcileEp, hep, h, hl]
      | some n => simp [reconcileEp, hep, h, hl]

theorem reconcileEdge_idem (ns : List GraphNode) (e : GraphEdge) :
    reconcileEdge ns (reconcileEdge ns e) = reconcileEdge ns e := by
  simp [reconcileEdge, reconcileEp_idem]

/-! ## Second-run invariance of the pipeline stages (claim C6) -/

theorem jsxFilter_map (f : GraphNode → GraphNode)
    (hkind : ∀ n, (f n).kind = n.kind) (l : List GraphNode) :
    ((l.map f).filter fun n => decide (n.kind = "jsx")) =
      (l.filter fun n => decide (n.kind = "jsx")).map f := by
  rw [List.filter_map]
  congr 1
  refine List.filter_congr ?_
  intro a _
  simp only [Function.comp]
  rw [hkind a]

theorem jsxNodesOf_trans (L : GraphLayout)
    (hemp : ¬ (jsxNodesOf L).isEmpty = true) :
    jsxNodesOf (applyJsxTreeLayout L) =
      (jsxNodesOf L).map (applyPos (posStateOf L).newNodePositions) := by
  rw [applyJsx_def_nonempty L hemp]
  show ((L.nodes.map (applyPos (posStateOf L).newNodePositions)).filter
      fun n => decide (n.kind = "jsx")) = _
  exact jsxFilter_map _ (applyPos_kind _) L.nodes

theorem rootsOf_trans (L : GraphLayout)
    (hemp : ¬ (jsxNodesOf L).isEmpty = true) :
    rootsOf (applyJsxTreeLayout L) =
      (rootsOf L).map (applyPos (posStateOf L).newNodePositions) := by
  unfold rootsOf
  rw [jsxNodesOf_trans L hemp]
  exact roots_filter_map _ (applyPos_id _) (applyPos_parent _) (jsxNodesOf L)

theorem fuelOf_trans (L : GraphLayout)
    (hemp : ¬ (jsxNodesOf L).isEmpty = true) :
    fuelOf (applyJsxTreeLayout L) = fuelOf L := by
  unfold fuelOf
  rw [jsxNodesOf_trans L hemp, List.length_map]

theorem dfsStateOf_trans (L : GraphLayout)
    (hemp : ¬ (jsxNodesOf L).isEmpty = true) :
    dfsStateOf (applyJsxTreeLayout L) = dfsStateOf L := by
  unfold dfsStateOf
  rw [rootsOf_trans L hemp, jsxNodesOf_trans L hemp, fuelOf_trans L hemp,
    List.foldl_map]
  congr 1
  funext st r
  exact travGo_map visitDfs _ (applyPos_id _) (applyPos_parent _)
    (jsxNodesOf L) (fuelOf L) r 0 st

theorem maxDepthOf_trans (L : GraphLayout)
    (hemp : ¬ (jsxNodesOf L).isEmpty = true) :
    maxDepthOf (applyJsxTreeLayout L) = maxDepthOf L := by
  unfold maxDepthOf
  rw [dfsStateOf_trans L hemp]

theorem colX_trans (L : GraphLayout)
    (hemp : ¬ (jsxNodesOf L).isEmpty = true) :
    (applyJsxTreeLayout L).colX = L.colX := by
  rw [applyJsx_def_nonempty L hemp]

theorem posStateOf_trans (L : GraphLayout)
    (hemp : ¬ (jsxNodesOf L).isEmpty = true) :
    posStateOf (applyJsxTreeLayout L) = posStateOf L := by
  unfold posStateOf
  rw [rootsOf_trans L hemp, jsxNodesOf_trans L hemp, fuelOf_trans L hemp,
    maxDepthOf_trans L hemp, colX_trans L hemp, List.foldl_map]
  congr 1
  funext st r
  exact travGo_map (visitPos L.colX.jsx (maxDepthOf L)) _ (applyPos_id _)
    (applyPos_parent _) (jsxNodesOf L) (fuelOf L) r 0 st

theorem nodes_out (L : GraphLayout)
    (hemp : ¬ (jsxNodesOf L).isEmpty = true) :
    (applyJsxTreeLayout L).nodes = updatedNodes L := by
  rw [applyJsx_def_nonempty L hemp]

theorem edges_out (L : GraphLayout)
    (hemp : ¬ (jsxNodesOf L).isEmpty = true) :
    (applyJsxTreeLayout L).edges =
      L.edges.map (reconcileEdge (updatedNodes L)) := by
  rw [applyJsx_def_nonempty L hemp]

theorem width_out (L : GraphLayout)
    (hemp : ¬ (jsxNodesOf L).isEmpty = true) :
    (applyJsxTreeLayout L).width = widthOut L := by
  rw [applyJsx_def_nonempty L hemp]

theorem height_out (L : GraphLayout)
    (hemp : ¬ (jsxNodesOf L).isEmpty = true) :
    (applyJsxTreeLayout L).height = heightOut L := by
  rw [applyJsx_def_nonempty L hemp]

theorem updatedNodes_trans (L : GraphLayout)
    (hemp : ¬ (jsxNodesOf L).isEmpty = true) :
    updatedNodes (applyJsxTreeLayout L) = updatedNodes L := by
  unfold updatedNodes
  rw [posStateOf_trans L hemp, nodes_out L hemp]
  show (updatedNodes L).map (applyPos (posStateOf L).newNodePositions) = _
  unfold updatedNodes
  rw [List.map_map]
  congr 1
  funext n
  exact applyPos_idem _ n

/-! ## Claim C6 -/

/-- Claim C6: the transformer is idempotent — running it on its own output
(whose jsx family and parent links it never alters) reproduces the same
nodes, edges, width, height and colX, here proved as full structural
equality of layouts. -/
theorem claim6_idempotent (L : GraphLayout) :
    applyJsxTreeLayout (applyJsxTreeLayout L) = applyJsxTreeLayout L := by
  by_cases hemp : (jsxNodesOf L).isEmpty = true
  · have hL : applyJsxTreeLayout L = L := by
      unfold applyJsxTreeLayout
      rw [if_pos hemp]
    rw [hL]
    exact hL
  · have hemp' : ¬ (jsxNodesOf (applyJsxTreeLayout L)).isEmpty = true := by
      rw [jsxNodesOf_trans L hemp]
      intro hh
      have h2 : jsxNodesOf L = [] :=
        List.map_eq_nil_iff.mp (List.isEmpty_iff.mp hh)
      exact hemp (by rw [h2]; rfl)
    rw [applyJsx_def_nonempty (applyJsxTreeLayout L) hemp']
    conv_rhs => rw [applyJsx_def_nonempty L hemp]
    have hupd := updatedNodes_trans L hemp
    congr 1
    · -- edges
      rw [hupd, edges_out L hemp, List.map_map]
      congr 1
      funext e
      exact reconcileEdge_idem _ e
    · -- width
      unfold widthOut
      rw [hupd, width_out L hemp]
      refine foldMax_absorb _ (updatedNodes L) (widthOut L) ?_
      intro a ha
      exact foldMax_ge_mem _ (updatedNodes L) L.width a ha
    · -- height
      unfold heightOut
      rw [hupd, height_out L hemp]
      refine foldMax_absorb _ (updatedNodes L) (heightOut L) ?_
      intro a ha
      exact foldMax_ge_mem _ (updatedNodes L) L.height a ha
    · -- colX
      exact colX_trans L hemp
